import Mathlib

/-!
# Verification of the Nextcloud-tools track-point consolidation scripts

This file embeds the track-point extraction, grouping, deduplication and
merge logic of the repository's Python scripts (`auto_merge_timelines.py`,
`merge_gpx.py`, `merge_daily_exports.py`, `merge_gabor_timelines.py`,
`phonetrack_timeline_updater.py`, `remove_2000_entries.py`) as executable
Lean definitions, and proves or refutes the specification's claims about
them.

Python library functions used by the scripts (`datetime.fromisoformat`,
`datetime.isoformat`, `str.replace`, `unicodedata.normalize`, the `re`
module) are embedded by faithful functional models restricted to the
grammar of values these scripts feed them; each such model carries a doc
comment saying what it models.
-/

namespace NextcloudTools

/-- Model of a Python `datetime.datetime` value at second resolution:
calendar fields plus an optional UTC offset in minutes (`none` models a
naive datetime, `some o` an aware one with `utcoffset = o` minutes). -/
structure DateTime where
  year : Nat
  month : Nat
  day : Nat
  hour : Nat
  minute : Nat
  second : Nat
  tzoffset : Option Int
deriving DecidableEq, Repr

/-- Gregorian leap-year test, as used by `datetime`'s calendar validation. -/
def isLeap (y : Nat) : Bool :=
  y % 4 == 0 && (y % 100 != 0 || y % 400 == 0)

/-- Number of days in a month, as validated by the `datetime` constructor. -/
def daysInMonth (y m : Nat) : Nat :=
  if m == 2 then (if isLeap y then 29 else 28)
  else if m == 4 || m == 6 || m == 9 || m == 11 then 30
  else 31

/-- Value of an ASCII digit character, `none` for a non-digit.  Python's
`\d` and `fromisoformat` digit handling also accept non-ASCII decimal
digits; the scripts only ever see ASCII digits, to which this is faithful. -/
def digitVal (c : Char) : Option Nat :=
  if c.isDigit then some (c.toNat - 48) else none

/-- Two ASCII digits as a number. -/
def digits2 (a b : Char) : Option Nat := do
  let x ← digitVal a
  let y ← digitVal b
  pure (x * 10 + y)

/-- Four ASCII digits as a number. -/
def digits4 (a b c d : Char) : Option Nat := do
  let x ← digits2 a b
  let y ← digits2 c d
  pure (x * 100 + y)

/-- Model of the UTC-offset suffix accepted by `datetime.fromisoformat`
on the timestamps these scripts handle: empty (naive), or `+HH:MM` /
`-HH:MM` with `HH ≤ 23`, `MM ≤ 59` (a `datetime.timezone` offset must be
strictly less than one day). -/
def parseOffset : List Char → Option (Option Int)
  | [] => some none
  | ['+', h1, h2, ':', m1, m2] => do
    let h ← digits2 h1 h2
    let m ← digits2 m1 m2
    if h ≤ 23 && m ≤ 59 then pure (some ((h * 60 + m : Nat) : Int)) else none
  | ['-', h1, h2, ':', m1, m2] => do
    let h ← digits2 h1 h2
    let m ← digits2 m1 m2
    if h ≤ 23 && m ≤ 59 then pure (some (-((h * 60 + m : Nat) : Int))) else none
  | _ => none

/-- Model of `datetime.fromisoformat` restricted to the grammar the
scripts feed it: `YYYY-MM-DDTHH:MM:SS` optionally followed by a numeric
`±HH:MM` offset, with full calendar/field validation (year ≥ 1, month
1–12, day within the month, hour ≤ 23, minute/second ≤ 59).  Any other
input is rejected (`none` models the `ValueError` the scripts catch). -/
def fromisoformat : List Char → Option DateTime
  | y1 :: y2 :: y3 :: y4 :: '-' :: mo1 :: mo2 :: '-' :: d1 :: d2 :: 'T' ::
      h1 :: h2 :: ':' :: mi1 :: mi2 :: ':' :: s1 :: s2 :: rest => do
    let y ← digits4 y1 y2 y3 y4
    let mo ← digits2 mo1 mo2
    let d ← digits2 d1 d2
    let h ← digits2 h1 h2
    let mi ← digits2 mi1 mi2
    let s ← digits2 s1 s2
    let off ← parseOffset rest
    if 1 ≤ y && 1 ≤ mo && mo ≤ 12 && 1 ≤ d && d ≤ daysInMonth y mo &&
        h ≤ 23 && mi ≤ 59 && s ≤ 59 then
      pure ⟨y, mo, d, h, mi, s, off⟩
    else none
  | _ => none

/-- Model of `time_str.replace('Z', '+00:00')`: every `'Z'` character is
replaced by the six characters `+00:00` (for a one-character pattern,
Python's `str.replace` is exactly this character-wise substitution). -/
def replaceZ : List Char → List Char
  | [] => []
  | c :: cs =>
    if c = 'Z' then '+' :: '0' :: '0' :: ':' :: '0' :: '0' :: replaceZ cs
    else c :: replaceZ cs

/-- `parse_timestamp` (identical in all five scripts): if the string
contains `'Z'`, replace it with `+00:00` and parse, else parse directly. -/
def parse_timestamp (s : String) : Option DateTime :=
  if s.data.contains 'Z' then fromisoformat (replaceZ s.data)
  else fromisoformat s.data

/-- ASCII digit character for `n < 10`. -/
def digitChar (n : Nat) : Char := Char.ofNat (48 + n % 10)

/-- Two-digit zero-padded decimal rendering (the fields `datetime`
renders this way are `< 100` by the `datetime` invariants). -/
def pad2 (n : Nat) : List Char := [digitChar (n / 10), digitChar n]

/-- Four-digit zero-padded decimal rendering (years are `≤ 9999`). -/
def pad4 (n : Nat) : List Char :=
  [digitChar (n / 1000), digitChar (n / 100), digitChar (n / 10), digitChar n]

/-- Model of `datetime.isoformat()` at second resolution:
`YYYY-MM-DDTHH:MM:SS` plus, for an aware value, the `±HH:MM` offset. -/
def isoformat (d : DateTime) : String :=
  let base := pad4 d.year ++ '-' :: pad2 d.month ++ '-' :: pad2 d.day ++
    'T' :: pad2 d.hour ++ ':' :: pad2 d.minute ++ ':' :: pad2 d.second
  match d.tzoffset with
  | none => ⟨base⟩
  | some o =>
    ⟨base ++ (if o < 0 then '-' else '+') ::
      pad2 (o.natAbs / 60) ++ ':' :: pad2 (o.natAbs % 60)⟩

/-- Lexicographic strict comparison of equal-length `Nat` lists, i.e.
Python's `<` on tuples of numbers. -/
def natListLt : List Nat → List Nat → Bool
  | [], [] => false
  | [], _ :: _ => true
  | _ :: _, [] => false
  | a :: as, b :: bs => a < b || (a == b && natListLt as bs)

/-- The field tuple Python compares for two naive datetimes. -/
def naiveKey (d : DateTime) : List Nat :=
  [d.year, d.month, d.day, d.hour, d.minute, d.second]

/-- Days-from-civil (proleptic Gregorian day number) — the day-count
underlying `datetime`'s `toordinal`, used here only to compare aware
datetimes as absolute instants. -/
def daysFromCivil (y m d : Nat) : Int :=
  let yAdj : Int := if m ≤ 2 then (y : Int) - 1 else (y : Int)
  let mp : Int := if m ≤ 2 then (m : Int) + 9 else (m : Int) - 3
  let era : Int := yAdj / 400
  let yoe : Int := yAdj % 400
  let doy : Int := (153 * mp + 2) / 5 + (d : Int) - 1
  let doe : Int := yoe * 365 + yoe / 4 - yoe / 100 + doy
  era * 146097 + doe

/-- Absolute instant of a datetime in seconds, shifting an aware value by
its UTC offset; for a naive value the offset contribution is zero. -/
def utcSecs (d : DateTime) : Int :=
  daysFromCivil d.year d.month d.day * 86400 +
    (d.hour : Int) * 3600 + (d.minute : Int) * 60 + (d.second : Int) -
    (d.tzoffset.getD 0) * 60

/-- Model of Python's `<` on two `datetime` values: comparing a naive and
an aware value raises `TypeError` (`none`); two naive values compare
lexicographically on their field tuples; two aware values compare as
absolute UTC instants. -/
def dtLt (a b : DateTime) : Option Bool :=
  match a.tzoffset, b.tzoffset with
  | none, none => some (natListLt (naiveKey a) (naiveKey b))
  | some _, some _ => some (decide (utcSecs a < utcSecs b))
  | _, _ => none

/-- A track point as held by the scripts: the pair `(ts, trkpt-element)`,
with the element's `lat`/`lon` attributes, the `<time>` child's text,
the parsed timestamp, and the payload the dedup key ignores
(`<ele>`, `<sat>`, recognized `<extensions>` children). -/
structure TrackPoint where
  lat : String
  lon : String
  timeText : String
  ts : DateTime
  ele : Option String
  sat : Option String
  exts : List (String × String)
deriving DecidableEq, Repr

/-- The dedup key of `merge_group` / `merge_daily_exports` /
`merge_gabor_timelines` / `update_timeline` / `remove_2000_entries`:
`(pt.get('lat'), pt.get('lon'), ts.isoformat())`. -/
def keyAuto (p : TrackPoint) : String × String × String :=
  (p.lat, p.lon, isoformat p.ts)

/-- The dedup key of `merge_gpx_files`:
`(lat, lon, time_str)` with `time_str` the `<time>` element's text. -/
def keyGpx (p : TrackPoint) : String × String × String :=
  (p.lat, p.lon, p.timeText)

/-- The duplicate-removal loop common to all scripts, over an arbitrary
key: scan in order with a `seen` set, keep a point iff its key is not in
`seen`, and add the key to `seen` either way it is new. -/
def dedupBy (key : TrackPoint → String × String × String)
    (seen : List (String × String × String)) :
    List TrackPoint → List TrackPoint
  | [] => []
  | p :: ps =>
    if key p ∈ seen then dedupBy key seen ps
    else p :: dedupBy key (key p :: seen) ps

/-- The `seen`-set duplicate removal with the `merge_group` key. -/
def dedup (l : List TrackPoint) : List TrackPoint := dedupBy keyAuto [] l

/-- Stable insertion of `a` into `l` before the first element `b` with
`le a b`. -/
def orderedInsertB (le : TrackPoint → TrackPoint → Bool) (a : TrackPoint) :
    List TrackPoint → List TrackPoint
  | [] => [a]
  | b :: l => if le a b then a :: b :: l else b :: orderedInsertB le a l

/-- Stable sort (the head is inserted into the sorted tail, landing
before any element it ties with — the same output as Python's stable
`list.sort` for a total key). -/
def insertionSortB (le : TrackPoint → TrackPoint → Bool) :
    List TrackPoint → List TrackPoint
  | [] => []
  | a :: l => orderedInsertB le a (insertionSortB le l)

/-- The ordering used by `unique.sort(key=lambda x: x[0])`: a stable sort
by `<` on timestamps places `p` no later than `q` iff not `q.ts < p.ts`;
where Python's `<` would raise (aware/naive mix) any answer models the
aborted run, and the sorting theorems assume homogeneous inputs. -/
def ptLe (p q : TrackPoint) : Bool :=
  match dtLt q.ts p.ts with
  | some b => !b
  | none => true

/-- The consolidation of `merge_group` (and, with a single new list, of
the other merge scripts): concatenate the existing timeline's points with
each new list in discovery order, remove duplicates by the
`(lat, lon, ts.isoformat())` key keeping first occurrences, and stably
sort by timestamp. -/
def consolidate (existing : List TrackPoint)
    (newLists : List (List TrackPoint)) : List TrackPoint :=
  insertionSortB ptLe (dedup (existing ++ newLists.flatten))

/-- `merge_group`'s output behaviour: if the concatenation of all inputs
is empty it returns 0 before writing anything (`none` = no output file);
otherwise the consolidated points are written. -/
def merge_group (existing : List TrackPoint)
    (newLists : List (List TrackPoint)) : Option (List TrackPoint) :=
  if (existing ++ newLists.flatten).isEmpty then none
  else some (consolidate existing newLists)

/-- A `<trkpt>` element of a source document as the scripts see it:
`lat`/`lon` attributes, the optional `<time>` child's text, and the
payload fields.  A whole source document is `Option (List RawPoint)`:
`none` models a file `xml.etree.ElementTree.parse` fails on (missing or
malformed XML), `some raws` its `trkpt` elements in document order. -/
structure RawPoint where
  lat : String
  lon : String
  timeText : Option String
  ele : Option String
  sat : Option String
  exts : List (String × String)
deriving DecidableEq, Repr

namespace AutoMerge

/-- The per-`trkpt` body of `collect_track_points` in
`auto_merge_timelines.py`, `phonetrack_timeline_updater.py` and
`merge_gabor_timelines.py`: skip when the `<time>` child is absent or
empty, when the timestamp fails to parse (`ValueError`), or when the
parsed year is 2000; otherwise keep the deep-copied point. -/
def extract_point (r : RawPoint) : Option TrackPoint :=
  match r.timeText with
  | none => none
  | some t =>
    match parse_timestamp t with
    | none => none
    | some ts =>
      if ts.year == 2000 then none
      else some ⟨r.lat, r.lon, t, ts, r.ele, r.sat, r.exts⟩

/-- `collect_track_points` of `auto_merge_timelines.py` and
`phonetrack_timeline_updater.py`: the whole body runs under
`try/except`, so an unparseable document yields the empty list plus a
warning message (the returned `Bool` is `true` iff the warning path was
taken). -/
def collect_track_points (doc : Option (List RawPoint)) :
    List TrackPoint × Bool :=
  match doc with
  | none => ([], true)
  | some raws => (raws.filterMap extract_point, false)

end AutoMerge

namespace MergeDaily

/-- The per-`trkpt` body of `collect_track_points` in
`merge_daily_exports.py` (also `merge_gpx.py`'s `collect_track_points`):
no year-2000 filter — only a missing/empty `<time>` child or a parse
failure skips the point. -/
def extract_point (r : RawPoint) : Option TrackPoint :=
  match r.timeText with
  | none => none
  | some t =>
    match parse_timestamp t with
    | none => none
    | some ts => some ⟨r.lat, r.lon, t, ts, r.ele, r.sat, r.exts⟩

/-- `collect_track_points` of `merge_daily_exports.py`: `ET.parse` is not
wrapped in `try/except`, so an unparseable document propagates the
exception (`none`) instead of returning an empty list. -/
def collect_track_points (doc : Option (List RawPoint)) :
    Option (List TrackPoint) :=
  doc.map (fun raws => raws.filterMap extract_point)

end MergeDaily

namespace MergeGpx

/-- `strftime('%Y-%m-%dT%H:%M:%SZ')` on a datetime. -/
def strftimeZ (d : DateTime) : String :=
  ⟨pad4 d.year ++ '-' :: pad2 d.month ++ '-' :: pad2 d.day ++
    'T' :: pad2 d.hour ++ ':' :: pad2 d.minute ++ ':' :: pad2 d.second ++
    ['Z']⟩

/-- `timestamp.replace(year=new_year)`. -/
def replaceYear (d : DateTime) (y : Nat) : DateTime := { d with year := y }

/-- `fix_year_2000_timestamps` of `merge_gpx.py`: every point whose
parsed year is 2000 is re-dated to `newYear`, and its `<time>` element's
text is rewritten in `%Y-%m-%dT%H:%M:%SZ` format; other points are
untouched.  (The source also counts the fixed points; only the point
list matters here.) -/
def fix_year_2000_timestamps (newYear : Nat) (points : List TrackPoint) :
    List TrackPoint :=
  points.map (fun p =>
    if p.ts.year == 2000 then
      let nts := replaceYear p.ts newYear
      { p with ts := nts, timeText := strftimeZ nts }
    else p)

/-- `merge_gpx_files` of `merge_gpx.py`: collect both files (unparseable
XML propagates, `none`), concatenate, optionally fix year-2000
timestamps, deduplicate by `(lat, lon, time-element-text)` keeping first
occurrences, and sort by timestamp (`create_merged_gpx` uses the stable
`sorted`). -/
def merge_gpx_files (doc1 doc2 : Option (List RawPoint))
    (fixYear2000 : Bool) : Option (List TrackPoint) := do
  let points1 ← MergeDaily.collect_track_points doc1
  let points2 ← MergeDaily.collect_track_points doc2
  let allPoints := points1 ++ points2
  let fixedPoints :=
    if fixYear2000 then fix_year_2000_timestamps 2019 allPoints
    else allPoints
  pure (insertionSortB ptLe (dedupBy keyGpx [] fixedPoints))

end MergeGpx

/-- Model of `unicodedata.normalize('NFD', ·)` per character, restricted
to the repertoire these filenames use: precomposed Latin letters with
acute, diaeresis or double-acute decompose into the base letter followed
by the combining mark; every other character is its own decomposition. -/
def nfdChar (c : Char) : List Char :=
  if c = 'Á' then ['A', '́'] else if c = 'á' then ['a', '́']
  else if c = 'É' then ['E', '́'] else if c = 'é' then ['e', '́']
  else if c = 'Í' then ['I', '́'] else if c = 'í' then ['i', '́']
  else if c = 'Ó' then ['O', '́'] else if c = 'ó' then ['o', '́']
  else if c = 'Ú' then ['U', '́'] else if c = 'ú' then ['u', '́']
  else if c = 'Ö' then ['O', '̈'] else if c = 'ö' then ['o', '̈']
  else if c = 'Ü' then ['U', '̈'] else if c = 'ü' then ['u', '̈']
  else if c = 'Ő' then ['O', '̋'] else if c = 'ő' then ['o', '̋']
  else if c = 'Ű' then ['U', '̋'] else if c = 'ű' then ['u', '̋']
  else [c]

/-- Model of `unicodedata.category(c) == 'Mn'` on the decomposed
repertoire above: the combining diacritical marks block U+0300–U+036F
(all of whose characters are non-spacing marks). -/
def isMn (c : Char) : Bool := 0x300 ≤ c.toNat && c.toNat ≤ 0x36F

/-- `normalize_text` (identical in `auto_merge_timelines.py` and
`phonetrack_timeline_updater.py`): decompose to NFD, then drop every
character of category Mn. -/
def normalize_text (s : String) : String :=
  ⟨(s.data.flatMap nfdChar).filter (fun c => !isMn c)⟩

/-- Model of `str.lower` restricted to ASCII letters (the only
characters the scripts lower-case after accent stripping, and the only
ones occurring in the reserved words compared against). -/
def lowerChar (c : Char) : Char :=
  if 'A' ≤ c ∧ c ≤ 'Z' then Char.ofNat (c.toNat + 32) else c

/-- `s.lower()` on a whole string (ASCII model, per `lowerChar`). -/
def pyLower (s : String) : String := ⟨s.data.map lowerChar⟩

/-- The grouping key of `scan_and_group_files`:
`(normalize_text(session).lower(), normalize_text(username).lower())`. -/
def group_key (session user : String) : String × String :=
  (pyLower (normalize_text session), pyLower (normalize_text user))

/-- The reserved trailing components that make `parse_filename` skip a
full-export match. -/
def reservedNames : List String := ["timeline", "merged", "combined"]

/-- Split a character list at its last underscore:
`some (before, after)` with `before ++ '_' :: after` the input and
`after` underscore-free; `none` when no underscore occurs. -/
def splitLastUnderscore : List Char → Option (List Char × List Char)
  | [] => none
  | c :: cs =>
    match splitLastUnderscore cs with
    | some (s, u) => some (c :: s, u)
    | none => if c = '_' then some ([], cs) else none

/-- Model of matching `FULL_PATTERN = ^(.+)_([^_]+)\.gpx$` (Python `re`,
greedy `(.+)`): the name must end in `.gpx`; the greedy first group
extends to the last underscore of the remainder, so the second group is
the last underscore-delimited segment, nonempty and underscore-free, and
the first group is nonempty.  (Faithful for newline-free filenames, the
only ones the scanner produces.) -/
def matchFull (name : List Char) : Option (List Char × List Char) :=
  if ['.', 'g', 'p', 'x'].isSuffixOf name then
    match splitLastUnderscore (name.take (name.length - 4)) with
    | some (s, u) => if s.isEmpty || u.isEmpty then none else some (s, u)
    | none => none
  else none

/-- `\d{4}-\d{2}-\d{2}`: exactly ten characters, digits in date shape. -/
def validDate : List Char → Bool
  | [a, b, c, d, '-', e, f, '-', g, h] =>
    a.isDigit && b.isDigit && c.isDigit && d.isDigit &&
      e.isDigit && f.isDigit && g.isDigit && h.isDigit
  | _ => false

/-- Does the list begin with `_daily_`, a valid date, `_`, and a
nonempty remainder?  Returns the date and the remainder. -/
def stripDailyAt : List Char → Option (List Char × List Char)
  | '_' :: 'd' :: 'a' :: 'i' :: 'l' :: 'y' :: '_' :: rest =>
    let date := rest.take 10
    let rest2 := rest.drop 10
    if validDate date then
      match rest2 with
      | '_' :: post => if post.isEmpty then none else some (date, post)
      | _ => none
    else none
  | _ => none

/-- The backtracking search of the greedy `(.+)` in
`DAILY_PATTERN = ^(.+)_daily_(\d{4}-\d{2}-\d{2})_(.+)\.gpx$`: the
longest nonempty prefix followed by `_daily_`, a date, `_` and a
nonempty rest wins.  Returns `(session, date, rest)`. -/
def dailySplit : List Char → Option (List Char × List Char × List Char)
  | [] => none
  | c :: cs =>
    match dailySplit cs with
    | some (pre, d, post) => some (c :: pre, d, post)
    | none =>
      match stripDailyAt cs with
      | some (d, post) => some ([c], d, post)
      | none => none

/-- Model of matching `DAILY_PATTERN` against a filename: strip the
final `.gpx` and run the greedy split. -/
def matchDaily (name : List Char) :
    Option (List Char × List Char × List Char) :=
  if ['.', 'g', 'p', 'x'].isSuffixOf name then
    dailySplit (name.take (name.length - 4))
  else none

/-- Python's `in` on strings: does `pat` occur as a contiguous substring? -/
def containsSub (pat : List Char) : List Char → Bool
  | [] => pat.isEmpty
  | c :: cs => pat.isPrefixOf (c :: cs) || containsSub pat cs

/-- `parse_filename` of `auto_merge_timelines.py`: skip names containing
`_TIMELINE.gpx`; try the daily pattern first, returning
`(session, username, some date)`; else try the full pattern, skipping a
reserved (case-insensitive) username and returning
`(session, username, none)`; else `none`. -/
def parse_filename (filename : String) :
    Option (String × String × Option String) :=
  if containsSub "_TIMELINE.gpx".data filename.data then none
  else
    match matchDaily filename.data with
    | some (s, d, u) => some (⟨s⟩, ⟨u⟩, some ⟨d⟩)
    | none =>
      match matchFull filename.data with
      | some (s, u) =>
        if reservedNames.contains (pyLower ⟨u⟩) then none
        else some (⟨s⟩, ⟨u⟩, none)
      | none => none

/-- One group of `scan_and_group_files`: the original-cased session and
username of the first file seen for the key, plus the files in scan
order. -/
structure Group where
  session : String
  user : String
  files : List String
deriving DecidableEq, Repr

/-- Insert a parsed file into the group table: a new key is appended at
the end (Python dict insertion order); an existing key keeps its original
names and position and appends the file. -/
def addFile (groups : List ((String × String) × Group))
    (k : String × String) (s u name : String) :
    List ((String × String) × Group) :=
  match groups with
  | [] => [(k, ⟨s, u, [name]⟩)]
  | (k0, g) :: rest =>
    if k0 = k then (k0, { g with files := g.files ++ [name] }) :: rest
    else (k0, g) :: addFile rest k s u name

/-- `scan_and_group_files` of `auto_merge_timelines.py`, over the names
the directory scan yields in order: group parseable names by
`group_key`, ignoring unparseable ones. -/
def scan_and_group_files (names : List String) :
    List ((String × String) × Group) :=
  List.foldl (fun groups name =>
    match parse_filename name with
    | some (s, u, _) => addFile groups (group_key s u) s u name
    | none => groups) [] names

/-- Written from the spec's words for comparison with the code's
`seen`-set loop: scan in concatenation order carrying the list `pre` of
ALL earlier points (kept or dropped); a point is retained iff no earlier
point has an identical identity key, so the first occurrence of each key
is kept and every later occurrence is dropped. -/
def dedupSpec (key : TrackPoint → String × String × String)
    (pre : List TrackPoint) : List TrackPoint → List TrackPoint
  | [] => []
  | p :: ps =>
    if pre.any (fun q => decide (key q = key p)) then
      dedupSpec key (pre ++ [p]) ps
    else p :: dedupSpec key (pre ++ [p]) ps

/-- The integer `merge_group` actually returns to `main` (the number of
unique points, 0 when nothing was merged): a normal return, counted into
the batch summary, never an error. -/
def merge_group_count (existing : List TrackPoint)
    (newLists : List (List TrackPoint)) : Nat :=
  match merge_group existing newLists with
  | none => 0
  | some points => points.length

/-- Sample aware instant 2023-06-01T10:00:00+00:00. -/
def dtZ : DateTime := ⟨2023, 6, 1, 10, 0, 0, some 0⟩

/-- A fix whose time text uses the `Z` suffix. -/
def ptZ : TrackPoint :=
  ⟨"47.5", "19.0", "2023-06-01T10:00:00Z", dtZ, none, none, []⟩

/-- The same fix re-encoded with an explicit `+00:00` offset text. -/
def ptOff : TrackPoint :=
  ⟨"47.5", "19.0", "2023-06-01T10:00:00+00:00", dtZ, none, none, []⟩

/-- An earlier aware fix at a different location. -/
def ptEarly : TrackPoint :=
  ⟨"47.6", "19.1", "2023-06-01T09:00:00Z", ⟨2023, 6, 1, 9, 0, 0, some 0⟩,
    none, none, []⟩

/-- A raw `trkpt` dated in the year-2000 sentinel range. -/
def raw2000 : RawPoint :=
  ⟨"47.5", "19.0", some "2000-01-05T10:00:00Z", none, none, []⟩

/-- The point `merge_daily_exports.py` extracts from `raw2000`. -/
def pt2000 : TrackPoint :=
  ⟨"47.5", "19.0", "2000-01-05T10:00:00Z", ⟨2000, 1, 5, 10, 0, 0, some 0⟩,
    none, none, []⟩

/-- A healthy raw `trkpt` dated 2023. -/
def rawZ : RawPoint :=
  ⟨"47.5", "19.0", some "2023-06-01T10:00:00Z", none, none, []⟩

/-! ## Helper lemmas about the duplicate-removal loop -/

theorem mem_of_mem_dedupBy (key : TrackPoint → String × String × String) :
    ∀ (l : List TrackPoint) (seen) (p : TrackPoint),
    p ∈ dedupBy key seen l → p ∈ l := by
  intro l
  induction l with
  | nil => intro seen p h; exact absurd h (by simp [dedupBy])
  | cons a l ih =>
    intro seen p h
    simp only [dedupBy] at h
    split at h
    · exact List.mem_cons_of_mem a (ih _ p h)
    · rcases List.mem_cons.mp h with h | h
      · exact h ▸ List.mem_cons_self a l
      · exact List.mem_cons_of_mem a (ih _ p h)

theorem dedupBy_key_nodup (key : TrackPoint → String × String × String) :
    ∀ (l : List TrackPoint) (seen),
    ((dedupBy key seen l).map key).Nodup ∧
      ∀ p ∈ dedupBy key seen l, key p ∉ seen := by
  intro l
  induction l with
  | nil => intro seen; simp [dedupBy]
  | cons a l ih =>
    intro seen
    simp only [dedupBy]
    split
    · exact ih seen
    · rename_i hnot
      obtain ⟨ihn, ihs⟩ := ih (key a :: seen)
      refine ⟨?_, ?_⟩
      · simp only [List.map_cons, List.nodup_cons]
        refine ⟨?_, ihn⟩
        intro hmem
        obtain ⟨q, hq, hkq⟩ := List.mem_map.mp hmem
        exact ihs q hq (by rw [hkq]; exact List.mem_cons_self _ _)
      · intro p hp
        rcases List.mem_cons.mp hp with h | h
        · exact h ▸ hnot
        · exact fun hc => ihs p h (List.mem_cons_of_mem _ hc)

theorem dedupBy_eq_self (key : TrackPoint → String × String × String) :
    ∀ (l : List TrackPoint) (seen), (l.map key).Nodup →
    (∀ p ∈ l, key p ∉ seen) → dedupBy key seen l = l := by
  intro l
  induction l with
  | nil => intro seen _ _; rfl
  | cons a l ih =>
    intro seen hnd hs
    simp only [List.map_cons, List.nodup_cons] at hnd
    have ha : key a ∉ seen := hs a (List.mem_cons_self a l)
    simp only [dedupBy, if_neg ha]
    congr 1
    refine ih _ hnd.2 ?_
    intro p hp hc
    rcases List.mem_cons.mp hc with h | h
    · exact hnd.1 (List.mem_map.mpr ⟨p, hp, h⟩)
    · exact hs p (List.mem_cons_of_mem a hp) h

theorem mem_dedupBy_prefix (key : TrackPoint → String × String × String) :
    ∀ (E R : List TrackPoint) (seen), (E.map key).Nodup →
    (∀ p ∈ E, key p ∉ seen) →
    ∀ p ∈ E, p ∈ dedupBy key seen (E ++ R) := by
  intro E
  induction E with
  | nil => intro R seen _ _ p hp; exact absurd hp (List.not_mem_nil p)
  | cons a E ih =>
    intro R seen hnd hs p hp
    simp only [List.map_cons, List.nodup_cons] at hnd
    have ha : key a ∉ seen := hs a (List.mem_cons_self a E)
    simp only [List.cons_append, dedupBy, if_neg ha]
    rcases List.mem_cons.mp hp with h | h
    · exact h ▸ List.mem_cons_self a _
    · refine List.mem_cons_of_mem a (ih R (key a :: seen) hnd.2 ?_ p h)
      intro q hq hc
      rcases List.mem_cons.mp hc with h2 | h2
      · exact hnd.1 (List.mem_map.mpr ⟨q, hq, h2⟩)
      · exact hs q (List.mem_cons_of_mem a hq) h2

theorem dedupBy_eq_dedupSpec (key : TrackPoint → String × String × String) :
    ∀ (l : List TrackPoint) (seen pre),
    (∀ k, k ∈ seen ↔ ∃ q ∈ pre, key q = k) →
    dedupBy key seen l = dedupSpec key pre l := by
  intro l
  induction l with
  | nil => intro seen pre _; rfl
  | cons a l ih =>
    intro seen pre hinv
    have hcond : (key a ∈ seen) ↔
        (pre.any (fun q => decide (key q = key a)) = true) := by
      rw [hinv]
      simp [List.any_eq_true]
    by_cases h : key a ∈ seen
    · rw [dedupBy, if_pos h, dedupSpec, if_pos (hcond.mp h)]
      refine ih _ _ ?_
      intro k
      rw [hinv k]
      constructor
      · rintro ⟨q, hq, rfl⟩; exact ⟨q, List.mem_append_left _ hq, rfl⟩
      · rintro ⟨q, hq, rfl⟩
        rcases List.mem_append.mp hq with h2 | h2
        · exact ⟨q, h2, rfl⟩
        · have : q = a := by simpa using h2
          subst this
          exact (hinv (key q)).mp h
    · rw [dedupBy, if_neg h, dedupSpec, if_neg (fun hc => h (hcond.mpr hc))]
      congr 1
      refine ih _ _ ?_
      intro k
      constructor
      · intro hk
        rcases List.mem_cons.mp hk with h2 | h2
        · exact ⟨a, List.mem_append_right _ (List.mem_cons_self a []), h2.symm⟩
        · obtain ⟨q, hq, he⟩ := (hinv k).mp h2
          exact ⟨q, List.mem_append_left _ hq, he⟩
      · rintro ⟨q, hq, rfl⟩
        rcases List.mem_append.mp hq with h2 | h2
        · exact List.mem_cons_of_mem _ ((hinv _).mpr ⟨q, h2, rfl⟩)
        · have : q = a := by simpa using h2
          subst this
          exact List.mem_cons_self _ _

/-! ## Helper lemmas about the stable sort -/

theorem mem_orderedInsertB (le : TrackPoint → TrackPoint → Bool)
    (a x : TrackPoint) :
    ∀ l, x ∈ orderedInsertB le a l ↔ x = a ∨ x ∈ l := by
  intro l
  induction l with
  | nil => simp [orderedInsertB]
  | cons b l ih =>
    simp only [orderedInsertB]
    split
    · simp only [List.mem_cons]
    · simp only [List.mem_cons, ih]
      tauto

theorem mem_insertionSortB (le : TrackPoint → TrackPoint → Bool)
    (x : TrackPoint) :
    ∀ l, x ∈ insertionSortB le l ↔ x ∈ l := by
  intro l
  induction l with
  | nil => simp [insertionSortB]
  | cons a l ih =>
    simp only [insertionSortB, mem_orderedInsertB, ih, List.mem_cons]

theorem perm_orderedInsertB (le : TrackPoint → TrackPoint → Bool)
    (a : TrackPoint) :
    ∀ l, List.Perm (orderedInsertB le a l) (a :: l) := by
  intro l
  induction l with
  | nil => exact List.Perm.refl _
  | cons b l ih =>
    simp only [orderedInsertB]
    split
    · exact List.Perm.refl _
    · exact (ih.cons b).trans (List.Perm.swap a b l)

theorem perm_insertionSortB (le : TrackPoint → TrackPoint → Bool) :
    ∀ l, List.Perm (insertionSortB le l) l := by
  intro l
  induction l with
  | nil => exact List.Perm.refl _
  | cons a l ih =>
    exact (perm_orderedInsertB le a _).trans (ih.cons a)

theorem orderedInsertB_splice (le : TrackPoint → TrackPoint → Bool)
    (a : TrackPoint) :
    ∀ l, ∃ l₁ l₂, orderedInsertB le a l = l₁ ++ a :: l₂ ∧ l = l₁ ++ l₂ ∧
      ∀ x ∈ l₁, le a x = false := by
  intro l
  induction l with
  | nil => exact ⟨[], [], rfl, rfl, by simp⟩
  | cons b l ih =>
    by_cases h : le a b
    · exact ⟨[], b :: l, by simp [orderedInsertB, h], rfl, by simp⟩
    · obtain ⟨l₁, l₂, h1, h2, h3⟩ := ih
      refine ⟨b :: l₁, l₂, ?_, ?_, ?_⟩
      · simp [orderedInsertB, h, h1]
      · simp [h2]
      · intro x hx
        rcases List.mem_cons.mp hx with h4 | h4
        · subst h4; exact Bool.eq_false_iff.mpr h
        · exact h3 x h4

theorem pairwise_orderedInsertB {P : TrackPoint → Prop}
    (le : TrackPoint → TrackPoint → Bool)
    (htot : ∀ x y, P x → P y → le x y = true ∨ le y x = true)
    (htrans : ∀ x y z, P x → P y → P z →
      le x y = true → le y z = true → le x z = true)
    (a : TrackPoint) (ha : P a) :
    ∀ l, (∀ x ∈ l, P x) →
    List.Pairwise (fun p q => le p q = true) l →
    List.Pairwise (fun p q => le p q = true) (orderedInsertB le a l) := by
  intro l
  induction l with
  | nil => intro _ _; simp [orderedInsertB]
  | cons b l ih =>
    intro hl hp
    have hPb : P b := hl b (List.mem_cons_self b l)
    have hPl : ∀ x ∈ l, P x := fun x hx => hl x (List.mem_cons_of_mem b hx)
    rw [List.pairwise_cons] at hp
    simp only [orderedInsertB]
    split
    · rename_i hab
      rw [List.pairwise_cons]
      refine ⟨?_, List.pairwise_cons.mpr hp⟩
      intro y hy
      rcases List.mem_cons.mp hy with h | h
      · exact h ▸ hab
      · exact htrans a b y ha hPb (hPl y h) hab (hp.1 y h)
    · rename_i hab
      have hba : le b a = true := by
        rcases htot a b ha hPb with h | h
        · exact absurd h hab
        · exact h
      rw [List.pairwise_cons]
      refine ⟨?_, ih hPl hp.2⟩
      intro y hy
      rcases (mem_orderedInsertB le a y l).mp hy with h | h
      · exact h ▸ hba
      · exact hp.1 y h

theorem sorted_insertionSortB {P : TrackPoint → Prop}
    (le : TrackPoint → TrackPoint → Bool)
    (htot : ∀ x y, P x → P y → le x y = true ∨ le y x = true)
    (htrans : ∀ x y z, P x → P y → P z →
      le x y = true → le y z = true → le x z = true) :
    ∀ l, (∀ x ∈ l, P x) →
    List.Pairwise (fun p q => le p q = true) (insertionSortB le l) := by
  intro l
  induction l with
  | nil => intro _; simp [insertionSortB]
  | cons a l ih =>
    intro hl
    have hPa : P a := hl a (List.mem_cons_self a l)
    have hPl : ∀ x ∈ l, P x := fun x hx => hl x (List.mem_cons_of_mem a hx)
    have hPs : ∀ x ∈ insertionSortB le l, P x :=
      fun x hx => hPl x ((mem_insertionSortB le x l).mp hx)
    exact pairwise_orderedInsertB le htot htrans a hPa _ hPs (ih hPl)

theorem insertionSortB_of_pairwise (le : TrackPoint → TrackPoint → Bool) :
    ∀ l, List.Pairwise (fun p q => le p q = true) l →
    insertionSortB le l = l := by
  intro l
  induction l with
  | nil => intro _; rfl
  | cons a l ih =>
    intro hp
    rw [List.pairwise_cons] at hp
    simp only [insertionSortB, ih hp.2]
    cases l with
    | nil => rfl
    | cons b l =>
      have hab : le a b = true := hp.1 b (List.mem_cons_self b l)
      simp [orderedInsertB, hab]

theorem filter_orderedInsertB (q : TrackPoint → Bool)
    (le : TrackPoint → TrackPoint → Bool) (a : TrackPoint)
    (l : List TrackPoint)
    (hq : ∀ x ∈ l, q x = true → q a = true → le a x = true) :
    (orderedInsertB le a l).filter q =
      if q a then a :: l.filter q else l.filter q := by
  obtain ⟨l₁, l₂, h1, h2, h3⟩ := orderedInsertB_splice le a l
  have hl₁ : l₁.filter q = [] ∨ q a = false := by
    by_cases hqa : q a = true
    · left
      rw [List.filter_eq_nil_iff]
      intro x hx
      intro hqx
      have := hq x (h2 ▸ List.mem_append_left l₂ hx) hqx hqa
      rw [h3 x hx] at this
      exact absurd this (by simp)
    · right; exact Bool.eq_false_iff.mpr hqa
  rw [h1, h2, List.filter_append, List.filter_append, List.filter_cons]
  by_cases hqa : q a = true
  · rcases hl₁ with h | h
    · rw [h, hqa]
      simp
    · rw [hqa] at h; exact absurd h (by simp)
  · have : q a = false := Bool.eq_false_iff.mpr hqa
    rw [this]
    simp

theorem filter_insertionSortB (q : TrackPoint → Bool)
    (le : TrackPoint → TrackPoint → Bool) :
    ∀ l, (∀ x ∈ l, ∀ y ∈ l, q x = true → q y = true → le x y = true) →
    (insertionSortB le l).filter q = l.filter q := by
  intro l
  induction l with
  | nil => intro _; rfl
  | cons a l ih =>
    intro hq
    have hql : ∀ x ∈ l, ∀ y ∈ l, q x = true → q y = true → le x y = true :=
      fun x hx y hy => hq x (List.mem_cons_of_mem a hx) y
        (List.mem_cons_of_mem a hy)
    have hcond : ∀ x ∈ insertionSortB le l, q x = true → q a = true →
        le a x = true := by
      intro x hx hqx hqa
      have hxl : x ∈ l := (mem_insertionSortB le x l).mp hx
      exact hq a (List.mem_cons_self a l) x (List.mem_cons_of_mem a hxl)
        hqa hqx
    simp only [insertionSortB]
    rw [filter_orderedInsertB q le a _ hcond, List.filter_cons, ih hql]

/-! ## Claim C1 -/

/-- Claim C1 counterexample: `merge_group` drops a point whose original
time text (`...+00:00`) differs from every earlier point's time text,
because its dedup key re-serializes the PARSED timestamp
(`ts.isoformat()`), conflating the `Z` and `+00:00` spellings of the
same instant.  So retention is not governed by the
(latitude-text, longitude-text, timestamp-as-originally-formatted-text)
key the claim states: `ptOff` has a fresh identity key yet is dropped. -/
theorem claim_C1_counterexample :
    parse_timestamp "2023-06-01T10:00:00Z" = some dtZ ∧
    parse_timestamp "2023-06-01T10:00:00+00:00" = some dtZ ∧
    decide (keyGpx ptZ = keyGpx ptOff) = false ∧
    ptOff ∈ [ptZ, ptOff] ∧
    dedup ([] ++ [[ptZ], [ptOff]].flatten) = [ptZ] := by
  refine ⟨by decide, by decide, by decide, by decide, by decide⟩

/-- Claim C1 amended: the duplicate-elimination step retains a point iff
no earlier point in concatenation order has an identical
(lat-text, lon-text, K) key, keeping first occurrences — where K is the
parsed timestamp re-serialized by `ts.isoformat()` in `merge_group` (not
the original text), and the original time-element text in
`merge_gpx_files`; the key ignores elevation, satellite count and
extension fields. -/
theorem claim_C1_amended :
    (∀ (existing : List TrackPoint) (newLists : List (List TrackPoint)),
      dedup (existing ++ newLists.flatten) =
        dedupSpec keyAuto [] (existing ++ newLists.flatten)) ∧
    (∀ l : List TrackPoint, dedupBy keyGpx [] l = dedupSpec keyGpx [] l) ∧
    (∀ p q : TrackPoint, p.lat = q.lat → p.lon = q.lon → p.ts = q.ts →
      keyAuto p = keyAuto q) := by
  refine ⟨?_, ?_, ?_⟩
  · intro existing newLists
    exact dedupBy_eq_dedupSpec keyAuto _ [] [] (by simp)
  · intro l
    exact dedupBy_eq_dedupSpec keyGpx l [] [] (by simp)
  · intro p q h1 h2 h3
    simp [keyAuto, h1, h2, h3]

/-- Claim C1 witness: the amended dedup law at a concrete merge, and the
key's indifference to elevation at two concrete points. -/
theorem claim_C1_witness :
    dedup ([ptZ] ++ [[ptOff]].flatten) =
      dedupSpec keyAuto [] ([ptZ] ++ [[ptOff]].flatten) ∧
    keyAuto ptZ = keyAuto { ptZ with ele := some "100" } :=
  ⟨claim_C1_amended.1 [ptZ] [[ptOff]],
    claim_C1_amended.2.2 ptZ { ptZ with ele := some "100" } rfl rfl rfl⟩

/-! ## Claim C2 -/

/-- Claim C2 counterexample: `merge_daily_exports.py` extracts a
year-2000 point without discarding it, and the point survives
deduplication and sorting into the output timeline; `merge_gpx.py` run
with `--no-fix-2000` likewise writes it out.  So the year-2000 sentinel
filter does not hold for every source file and run mode. -/
theorem claim_C2_counterexample :
    MergeDaily.extract_point raw2000 = some pt2000 ∧
    pt2000.ts.year = 2000 ∧
    consolidate [] [[pt2000]] = [pt2000] ∧
    MergeGpx.merge_gpx_files (some [raw2000]) (some []) false =
      some [pt2000] := by
  refine ⟨by decide, by decide, by decide, by decide⟩

/-- Claim C2 amended: in `auto_merge_timelines.py`,
`phonetrack_timeline_updater.py` and `merge_gabor_timelines.py` the
extractor never emits a year-2000 point, and consolidation introduces no
points beyond its inputs, so no year-2000 point can reach those
timelines; `merge_daily_exports.py` has no sentinel filter and
`merge_gpx.py` re-dates such points instead of discarding them. -/
theorem claim_C2_amended :
    (∀ r p, AutoMerge.extract_point r = some p → p.ts.year ≠ 2000) ∧
    (∀ (existing : List TrackPoint) (newLists : List (List TrackPoint))
      (p : TrackPoint), p ∈ consolidate existing newLists →
      p ∈ existing ++ newLists.flatten) := by
  constructor
  · intro r p h
    simp only [AutoMerge.extract_point] at h
    split at h
    · exact absurd h (by simp)
    · split at h
      · exact absurd h (by simp)
      · split at h
        · exact absurd h (by simp)
        · rename_i hy
          rw [Option.some.injEq] at h
          subst h
          intro hc
          apply hy
          rw [beq_iff_eq]
          exact hc
  · intro existing newLists p h
    have h1 : p ∈ dedup (existing ++ newLists.flatten) :=
      (mem_insertionSortB ptLe p _).mp h
    exact mem_of_mem_dedupBy keyAuto _ [] p h1

/-- Claim C2 witness: the amended law at a healthy concrete point: the
extracted point is not year-2000, and a concrete consolidation's output
point came from its inputs. -/
theorem claim_C2_witness :
    decide (ptZ.ts.year = 2000) = false ∧
    ptZ ∈ [ptZ] ++ ([] : List (List TrackPoint)).flatten :=
  ⟨decide_eq_false (claim_C2_amended.1 rawZ ptZ (by decide)),
    claim_C2_amended.2 [ptZ] [] ptZ (by decide)⟩

/-! ## Claim C3 -/

/-- Claim C3 counterexample: `merge_daily_exports.py`'s
`collect_track_points` does not wrap `ET.parse` in `try/except`, so an
unparseable document propagates the exception (`none`) instead of
returning an empty point sequence with a warning — one bad file aborts
that run rather than letting the batch continue. -/
theorem claim_C3_counterexample :
    MergeDaily.collect_track_points none = none ∧
    decide (MergeDaily.collect_track_points none = some []) = false := by
  exact ⟨rfl, by decide⟩

/-- Claim C3 amended: in `auto_merge_timelines.py` and
`phonetrack_timeline_updater.py` the extractor returns an empty sequence
plus a warning on an unparseable document, and the rest of a batch is
processed unaffected; in `merge_daily_exports.py` (and the other
fixed-path scripts) the parse exception propagates instead. -/
theorem claim_C3_amended :
    AutoMerge.collect_track_points none = ([], true) ∧
    (∀ pre post : List (Option (List RawPoint)),
      (pre ++ none :: post).map
          (fun d => (AutoMerge.collect_track_points d).1) =
        pre.map (fun d => (AutoMerge.collect_track_points d).1) ++
          [] :: post.map (fun d => (AutoMerge.collect_track_points d).1)) ∧
    MergeDaily.collect_track_points none = none := by
  refine ⟨rfl, ?_, rfl⟩
  intro pre post
  simp [AutoMerge.collect_track_points]

/-! ## Comparison facts on offset-aware points (the data model's
timestamps always carry a known offset) -/

theorem ptLe_iff_aware (p q : TrackPoint)
    (hp : p.ts.tzoffset.isSome = true) (hq : q.ts.tzoffset.isSome = true) :
    ptLe p q = true ↔ utcSecs p.ts ≤ utcSecs q.ts := by
  rcases hop : p.ts.tzoffset with _ | op
  · rw [hop] at hp; exact absurd hp (by simp)
  rcases hoq : q.ts.tzoffset with _ | oq
  · rw [hoq] at hq; exact absurd hq (by simp)
  simp only [ptLe, dtLt, hop, hoq]
  simp [not_lt]

theorem ptLe_total_aware (x y : TrackPoint)
    (hx : x.ts.tzoffset.isSome = true) (hy : y.ts.tzoffset.isSome = true) :
    ptLe x y = true ∨ ptLe y x = true := by
  rw [ptLe_iff_aware x y hx hy, ptLe_iff_aware y x hy hx]
  exact le_total _ _

theorem ptLe_trans_aware (x y z : TrackPoint)
    (hx : x.ts.tzoffset.isSome = true) (hy : y.ts.tzoffset.isSome = true)
    (hz : z.ts.tzoffset.isSome = true)
    (h1 : ptLe x y = true) (h2 : ptLe y z = true) : ptLe x z = true := by
  rw [ptLe_iff_aware x y hx hy] at h1
  rw [ptLe_iff_aware y z hy hz] at h2
  rw [ptLe_iff_aware x z hx hz]
  exact le_trans h1 h2

/-! ## Claim C4 -/

/-- Claim C4: consolidation is idempotent — feeding the output of
`consolidate(A, [B])` back as the only existing input with zero new
lists returns it unchanged: its keys are already duplicate-free, so the
dedup pass keeps everything, and it is already sorted, so the stable
sort keeps the order.  (Timestamps are offset-aware, as the data model's
timestamp invariant requires; mixing aware and naive timestamps would
abort the Python sort instead.) -/
theorem claim_C4 (A B : List TrackPoint)
    (h : ∀ p ∈ A ++ B, p.ts.tzoffset.isSome = true) :
    consolidate (consolidate A [B]) [] = consolidate A [B] := by
  have hDaware : ∀ p ∈ dedup (A ++ [B].flatten),
      p.ts.tzoffset.isSome = true := by
    intro p hp
    have hmem : p ∈ A ++ [B].flatten := mem_of_mem_dedupBy keyAuto _ [] p hp
    exact h p (by simpa using hmem)
  have hsorted : List.Pairwise (fun p q => ptLe p q = true)
      (insertionSortB ptLe (dedup (A ++ [B].flatten))) :=
    sorted_insertionSortB (P := fun p => p.ts.tzoffset.isSome = true) ptLe
      ptLe_total_aware ptLe_trans_aware _ hDaware
  have hknodup : ((insertionSortB ptLe (dedup (A ++ [B].flatten))).map
      keyAuto).Nodup := by
    have h1 := (dedupBy_key_nodup keyAuto (A ++ [B].flatten) []).1
    have hperm := perm_insertionSortB ptLe (dedup (A ++ [B].flatten))
    exact ((hperm.map keyAuto).nodup_iff).mpr h1
  show insertionSortB ptLe
      (dedup (insertionSortB ptLe (dedup (A ++ [B].flatten)) ++
        List.flatten [])) = _
  rw [show (List.flatten ([] : List (List TrackPoint))) = [] from rfl,
    List.append_nil]
  rw [dedup, dedupBy_eq_self keyAuto _ [] hknodup (by simp)]
  exact insertionSortB_of_pairwise ptLe _ hsorted

/-- Claim C4 witness: idempotence at a concrete two-point merge. -/
theorem claim_C4_witness :
    consolidate (consolidate [ptZ] [[ptEarly]]) [] =
      consolidate [ptZ] [[ptEarly]] :=
  claim_C4 [ptZ] [ptEarly] (by decide)

/-! ## Claim C5 -/

/-- Claim C5: every consolidate output is sorted — each point's
timestamp is no later than the next one's — and the sort is stable:
for any instant, the output's points at that instant are exactly the
deduplicated concatenation's points at that instant, in the same
(pre-sort) order.  (Offset-aware timestamps, per the data model.) -/
theorem claim_C5 (existing : List TrackPoint)
    (newLists : List (List TrackPoint))
    (h : ∀ p ∈ existing ++ newLists.flatten, p.ts.tzoffset.isSome = true) :
    List.Pairwise (fun p q => ptLe p q = true)
      (consolidate existing newLists) ∧
    ∀ t : Int,
      (consolidate existing newLists).filter
          (fun p => utcSecs p.ts == t) =
        (dedup (existing ++ newLists.flatten)).filter
          (fun p => utcSecs p.ts == t) := by
  have hDaware : ∀ p ∈ dedup (existing ++ newLists.flatten),
      p.ts.tzoffset.isSome = true :=
    fun p hp => h p (mem_of_mem_dedupBy keyAuto _ [] p hp)
  constructor
  · exact sorted_insertionSortB (P := fun p => p.ts.tzoffset.isSome = true)
      ptLe ptLe_total_aware ptLe_trans_aware _ hDaware
  · intro t
    apply filter_insertionSortB
    intro x hx y hy hqx hqy
    rw [beq_iff_eq] at hqx hqy
    rw [ptLe_iff_aware x y (hDaware x hx) (hDaware y hy), hqx, hqy]

/-- Claim C5 witness: sortedness and tie stability at a concrete merge
and a concrete instant. -/
theorem claim_C5_witness :
    List.Pairwise (fun p q => ptLe p q = true)
      (consolidate [ptZ] [[ptEarly]]) ∧
    (consolidate [ptZ] [[ptEarly]]).filter
        (fun p => utcSecs p.ts == utcSecs dtZ) =
      (dedup ([ptZ] ++ [[ptEarly]].flatten)).filter
        (fun p => utcSecs p.ts == utcSecs dtZ) :=
  ⟨(claim_C5 [ptZ] [[ptEarly]] (by decide)).1,
    (claim_C5 [ptZ] [[ptEarly]] (by decide)).2 (utcSecs dtZ)⟩

/-! ## Claim C6 -/

/-- Claim C6: consolidation is monotone — every point of the supplied
existing timeline appears in the merge output.  The existing points come
first in concatenation order, so (their keys being pairwise distinct, as
any timeline produced by the engine guarantees) each survives the
first-occurrence dedup, and sorting only permutes. -/
theorem claim_C6 (existing : List TrackPoint)
    (newLists : List (List TrackPoint))
    (hE : (existing.map keyAuto).Nodup) :
    ∀ p ∈ existing, p ∈ consolidate existing newLists := by
  intro p hp
  apply (mem_insertionSortB ptLe p _).mpr
  exact mem_dedupBy_prefix keyAuto existing _ [] hE (by simp) p hp

/-- Claim C6 witness: a concrete existing point survives a concrete
merge with a new list. -/
theorem claim_C6_witness : ptZ ∈ consolidate [ptZ] [[ptEarly]] :=
  claim_C6 [ptZ] [[ptEarly]] (by decide) ptZ (by decide)

/-! ## Claim C9 -/

/-- Claim C9: when the union of an existing timeline's points and all
source files' points is empty after filtering, `merge_group` writes no
output file and returns the count 0 through the normal path — the batch
is not treated as failed. -/
theorem claim_C9 (existing : List TrackPoint)
    (newLists : List (List TrackPoint))
    (h : existing ++ newLists.flatten = []) :
    merge_group existing newLists = none ∧
      merge_group_count existing newLists = 0 := by
  have he : (existing ++ newLists.flatten).isEmpty = true := by
    rw [h]; rfl
  constructor
  · simp [merge_group, he]
  · simp [merge_group_count, merge_group, he]

/-- Claim C9 witness: a group whose sources all produced zero points. -/
theorem claim_C9_witness :
    merge_group [] [[], []] = none ∧ merge_group_count [] [[], []] = 0 :=
  claim_C9 [] [[], []] rfl

/-! ## Claim C10 -/

/-- Claim C10: `parse_timestamp` maps a `Z`-suffixed string and the
equivalent `+00:00` string to the same aware instant, and a string with
no offset to a naive datetime; the `<` comparison the consolidation sort
uses is defined whenever both operands are aware or both naive, and
undefined (raises `TypeError`) exactly when awareness is mixed. -/
theorem claim_C10 :
    parse_timestamp "2023-06-01T10:00:00Z" = some dtZ ∧
    parse_timestamp "2023-06-01T10:00:00+00:00" = some dtZ ∧
    dtZ.tzoffset = some 0 ∧
    parse_timestamp "2023-06-01T10:00:00" =
      some ⟨2023, 6, 1, 10, 0, 0, none⟩ ∧
    (∀ a b : DateTime, a.tzoffset.isSome = true → b.tzoffset.isSome = true →
      (dtLt a b).isSome = true) ∧
    (∀ a b : DateTime, a.tzoffset = none → b.tzoffset = none →
      (dtLt a b).isSome = true) ∧
    (∀ a b : DateTime, a.tzoffset.isSome ≠ b.tzoffset.isSome →
      dtLt a b = none) := by
  refine ⟨by decide, by decide, rfl, by decide, ?_, ?_, ?_⟩
  · intro a b ha hb
    rcases hoa : a.tzoffset with _ | oa
    · rw [hoa] at ha; exact absurd ha (by simp)
    rcases hob : b.tzoffset with _ | ob
    · rw [hob] at hb; exact absurd hb (by simp)
    simp [dtLt, hoa, hob]
  · intro a b ha hb
    simp [dtLt, ha, hb]
  · intro a b hab
    rcases hoa : a.tzoffset with _ | oa <;> rcases hob : b.tzoffset with _ | ob
    · rw [hoa, hob] at hab; exact absurd rfl hab
    · simp [dtLt, hoa, hob]
    · simp [dtLt, hoa, hob]
    · rw [hoa, hob] at hab; exact absurd rfl hab

/-- Claim C10 witness: the comparison facts at concrete datetimes — two
aware values compare, two naive values compare, an aware/naive pair does
not. -/
theorem claim_C10_witness :
    (dtLt dtZ dtZ).isSome = true ∧
    (dtLt ⟨2023, 6, 1, 10, 0, 0, none⟩ ⟨2023, 6, 1, 9, 0, 0, none⟩).isSome =
      true ∧
    dtLt dtZ ⟨2023, 6, 1, 10, 0, 0, none⟩ = none := by
  obtain ⟨-, -, -, -, h5, h6, h7⟩ := claim_C10
  exact ⟨h5 dtZ dtZ rfl rfl, h6 _ _ rfl rfl, h7 _ _ (by decide)⟩

/-! ## Claim C7 -/

/-- Claim C7: the normalizer decomposes to NFD and strips all
non-spacing combining marks, so `normalize_text` sends `Ági` and `Agi`
to the same text, lower-casing makes them agree with `AGI`'s key, and
the scanner folds files whose normalized (session, user) keys coincide
into one Group (named after the first file seen), regardless of accents
or casing. -/
theorem claim_C7 :
    normalize_text "Ági" = normalize_text "Agi" ∧
    pyLower (normalize_text "Ági") = pyLower (normalize_text "AGI") ∧
    group_key "Trip" "Ági" = group_key "TRIP" "AGI" ∧
    scan_and_group_files ["Trip_Ági.gpx", "Trip_Agi.gpx", "TRIP_AGI.gpx"] =
      [(("trip", "agi"),
        ⟨"Trip", "Ági", ["Trip_Ági.gpx", "Trip_Agi.gpx", "TRIP_AGI.gpx"]⟩)] := by
  refine ⟨by decide, by decide, by decide, by decide⟩

/-! ## Helper lemmas about the filename patterns -/

theorem splitLastUnderscore_none :
    ∀ l : List Char, splitLastUnderscore l = none → '_' ∉ l := by
  intro l
  induction l with
  | nil => intro _; exact List.not_mem_nil '_'
  | cons c cs ih =>
    intro h
    cases h' : splitLastUnderscore cs with
    | some r =>
      obtain ⟨s', u'⟩ := r
      simp only [splitLastUnderscore, h'] at h
      exact absurd h (by simp)
    | none =>
      simp only [splitLastUnderscore, h'] at h
      by_cases hc : c = '_'
      · rw [if_pos hc] at h; exact absurd h (by simp)
      · intro hm
        rcases List.mem_cons.mp hm with h2 | h2
        · exact hc h2.symm
        · exact ih h' h2

theorem splitLastUnderscore_of_not_mem :
    ∀ l : List Char, '_' ∉ l → splitLastUnderscore l = none := by
  intro l
  induction l with
  | nil => intro _; rfl
  | cons c cs ih =>
    intro h
    have hc : c ≠ '_' := fun hc => h (hc ▸ List.mem_cons_self c cs)
    have hcs : '_' ∉ cs := fun hm => h (List.mem_cons_of_mem c hm)
    simp only [splitLastUnderscore, ih hcs]
    rw [if_neg hc]

theorem splitLastUnderscore_sound :
    ∀ (l s u : List Char), splitLastUnderscore l = some (s, u) →
    l = s ++ '_' :: u ∧ '_' ∉ u := by
  intro l
  induction l with
  | nil => intro s u h; exact absurd h (by simp [splitLastUnderscore])
  | cons c cs ih =>
    intro s u h
    cases h' : splitLastUnderscore cs with
    | some r =>
      obtain ⟨s', u'⟩ := r
      simp only [splitLastUnderscore, h'] at h
      rw [Option.some.injEq, Prod.mk.injEq] at h
      obtain ⟨hs, hu⟩ := h
      obtain ⟨he, hnm⟩ := ih s' u' h'
      subst hs; subst hu
      exact ⟨by rw [he]; rfl, hnm⟩
    | none =>
      simp only [splitLastUnderscore, h'] at h
      by_cases hc : c = '_'
      · rw [if_pos hc, Option.some.injEq, Prod.mk.injEq] at h
        obtain ⟨hs, hu⟩ := h
        subst hs; subst hu
        exact ⟨by rw [hc]; rfl, splitLastUnderscore_none cs h'⟩
      · rw [if_neg hc] at h
        exact absurd h (by simp)

theorem splitLastUnderscore_complete :
    ∀ (s u : List Char), '_' ∉ u →
    splitLastUnderscore (s ++ '_' :: u) = some (s, u) := by
  intro s
  induction s with
  | nil =>
    intro u hu
    simp [splitLastUnderscore, splitLastUnderscore_of_not_mem u hu]
  | cons c s ih =>
    intro u hu
    simp [splitLastUnderscore, ih u hu]

theorem matchFull_sound :
    ∀ (name s u : List Char), matchFull name = some (s, u) →
    name = s ++ '_' :: u ++ ".gpx".data ∧ s ≠ [] ∧ u ≠ [] ∧ '_' ∉ u := by
  intro name s u h
  by_cases hsuf : (['.', 'g', 'p', 'x'] : List Char).isSuffixOf name = true
  · obtain ⟨base, hb⟩ : ∃ t, t ++ ['.', 'g', 'p', 'x'] = name :=
      List.isSuffixOf_iff_suffix.mp hsuf
    have htake : name.take (name.length - 4) = base := by
      rw [← hb, List.length_append]
      simp [List.take_left]
    simp only [matchFull, hsuf, if_true, htake] at h
    cases h' : splitLastUnderscore base with
    | some r =>
      obtain ⟨s', u'⟩ := r
      simp only [h'] at h
      by_cases hne : (s'.isEmpty || u'.isEmpty) = true
      · rw [if_pos hne] at h
        exact absurd h (by simp)
      · rw [if_neg hne, Option.some.injEq, Prod.mk.injEq] at h
        obtain ⟨hs, hu⟩ := h
        obtain ⟨he, hnm⟩ := splitLastUnderscore_sound base s' u' h'
        rw [Bool.or_eq_true, not_or] at hne
        subst hs; subst hu
        refine ⟨?_, ?_, ?_, hnm⟩
        · rw [← hb, he, show (".gpx".data : List Char) = ['.', 'g', 'p', 'x']
            from rfl]
        · intro hc
          exact hne.1 (by rw [hc]; rfl)
        · intro hc
          exact hne.2 (by rw [hc]; rfl)
    | none =>
      simp only [h'] at h
      simp at h
  · simp only [matchFull, if_neg hsuf] at h
    simp at h

theorem matchFull_complete :
    ∀ s u : List Char, s ≠ [] → u ≠ [] → '_' ∉ u →
    matchFull (s ++ '_' :: u ++ ".gpx".data) = some (s, u) := by
  intro s u hs hu hnm
  have hshape : s ++ '_' :: u ++ ".gpx".data =
      (s ++ '_' :: u) ++ ['.', 'g', 'p', 'x'] := by
    rw [show (".gpx".data : List Char) = ['.', 'g', 'p', 'x'] from rfl]
  have hsuf : (['.', 'g', 'p', 'x'] : List Char).isSuffixOf
      (s ++ '_' :: u ++ ".gpx".data) = true := by
    rw [List.isSuffixOf_iff_suffix, hshape]
    exact ⟨s ++ '_' :: u, rfl⟩
  have htake : (s ++ '_' :: u ++ ".gpx".data).take
      ((s ++ '_' :: u ++ ".gpx".data).length - 4) = s ++ '_' :: u := by
    rw [hshape, List.length_append,
      show (['.', 'g', 'p', 'x'] : List Char).length = 4 from rfl,
      Nat.add_sub_cancel, List.take_left]
  have hse : s.isEmpty = false := by
    cases s with
    | nil => exact absurd rfl hs
    | cons a l => rfl
  have hue : u.isEmpty = false := by
    cases u with
    | nil => exact absurd rfl hu
    | cons a l => rfl
  unfold matchFull
  rw [if_pos hsuf, htake, splitLastUnderscore_complete s u hnm]
  simp [hse, hue]

/-! ## Claim C8 -/

/-- Claim C8: `parse_filename` returns `none` for any name containing
`_TIMELINE.gpx`; otherwise the daily pattern is tried first and its
match is returned; failing that, the full pattern's match is returned
unless its trailing segment is (case-insensitively) reserved; and a full
match decomposes the name greedily so that the username is exactly the
final, nonempty, underscore-free underscore-delimited segment before
`.gpx` — conversely any name of that shape matches. -/
theorem claim_C8 :
    (∀ name : String, containsSub "_TIMELINE.gpx".data name.data = true →
      parse_filename name = none) ∧
    (∀ (name : String) (s d u : List Char),
      containsSub "_TIMELINE.gpx".data name.data = false →
      matchDaily name.data = some (s, d, u) →
      parse_filename name = some (⟨s⟩, ⟨u⟩, some ⟨d⟩)) ∧
    (∀ (name : String) (s u : List Char),
      containsSub "_TIMELINE.gpx".data name.data = false →
      matchDaily name.data = none →
      matchFull name.data = some (s, u) →
      (reservedNames.contains (pyLower ⟨u⟩) = true →
        parse_filename name = none) ∧
      (reservedNames.contains (pyLower ⟨u⟩) = false →
        parse_filename name = some (⟨s⟩, ⟨u⟩, none))) ∧
    (∀ name s u : List Char, matchFull name = some (s, u) →
      name = s ++ '_' :: u ++ ".gpx".data ∧ s ≠ [] ∧ u ≠ [] ∧ '_' ∉ u) ∧
    (∀ s u : List Char, s ≠ [] → u ≠ [] → '_' ∉ u →
      matchFull (s ++ '_' :: u ++ ".gpx".data) = some (s, u)) := by
  refine ⟨?_, ?_, ?_, matchFull_sound, matchFull_complete⟩
  · intro name h
    simp [parse_filename, h]
  · intro name s d u h1 h2
    simp [parse_filename, h1, h2]
  · intro name s u h1 h2 h3
    constructor
    · intro hres
      have hmem : pyLower ⟨u⟩ ∈ reservedNames := by simpa using hres
      simp [parse_filename, h1, h2, h3, hmem]
    · intro hres
      have hmem : pyLower ⟨u⟩ ∉ reservedNames := by simpa using hres
      simp [parse_filename, h1, h2, h3, hmem]

/-- Claim C8 witness: the branches at concrete filenames — a timeline
output, a daily export, a reserved trailing segment, and a plain full
export decomposed at its last underscore. -/
theorem claim_C8_witness :
    parse_filename "Trip_Agi_TIMELINE.gpx" = none ∧
    parse_filename "Trip_daily_2023-06-01_Agi.gpx" =
      some ("Trip", "Agi", some "2023-06-01") ∧
    parse_filename "Trip_Timeline.gpx" = none ∧
    parse_filename "My_Trip_Agi.gpx" = some ("My_Trip", "Agi", none) ∧
    "My_Trip_Agi.gpx".data =
      "My_Trip".data ++ '_' :: "Agi".data ++ ".gpx".data ∧
    matchFull ("My_Trip".data ++ '_' :: "Agi".data ++ ".gpx".data) =
      some ("My_Trip".data, "Agi".data) := by
  refine ⟨claim_C8.1 "Trip_Agi_TIMELINE.gpx" (by decide),
    claim_C8.2.1 "Trip_daily_2023-06-01_Agi.gpx" "Trip".data
      "2023-06-01".data "Agi".data (by decide) (by decide),
    (claim_C8.2.2.1 "Trip_Timeline.gpx" "Trip".data "Timeline".data
      (by decide) (by decide) (by decide)).1 (by decide),
    (claim_C8.2.2.1 "My_Trip_Agi.gpx" "My_Trip".data "Agi".data
      (by decide) (by decide) (by decide)).2 (by decide),
    (claim_C8.2.2.2.1 "My_Trip_Agi.gpx".data "My_Trip".data "Agi".data
      (by decide)).1,
    claim_C8.2.2.2.2 "My_Trip".data "Agi".data (by decide) (by decide)
      (by decide)⟩

end NextcloudTools
